import Mathlib

/-!
# MiniHuis blackjack engine: embedding of `src/main.cpp`

The blackjack part of the sketch (region "BlackJack Code") is translated
function by function.  Conventions of the embedding:

* `int playerHand[10]` together with `numDrawnPlayer` is the list of the first
  `numDrawnPlayer` array entries (same for the dealer).  Every read in the
  source is at an index below the counter, so entries above it never matter;
  `numDrawnPlayer = 0` is the empty list and `hand[n++] = c` is `hand ++ [c]`.
  The list itself is unbounded, so the 10-entry bound is a theorem, not built in.
* `random(n)` of the Arduino core is `raw % n` for a raw generator output; the
  generator is a list of raw outputs consumed from the front, and a function
  that runs out of outputs before its rejection loop accepts a card yields
  `none`.
* `millis()` is an argument `now`; `unsigned long` is 32 bits wide.
* `int` totals are natural numbers without a bound: a hand of `n` cards never totals
  more than `11 * n` (`softTotal_le`, `calculateHandValue_le_softTotal`) and the hands
  of the engine hold at most 10 cards, so no `int` of the source overflows.
* Calls to the display are recorded, in order, in the field `shown`.
-/

namespace MiniHuis

/-! ## Deck -/

/-- Suit bitmaps named by the deck table (declared in `bitmaps.h`). -/
inductive Suit where
  | spade
  | heart
  | diamond
  | club
  deriving DecidableEq, Repr

/-- The source's `struct Card`: a rank label and a suit bitmap. -/
structure Card where
  value : String
  suit : Suit
  deriving DecidableEq, Repr

/-- The table `deck[]`, entry by entry. -/
def deck : List Card :=
  [
   ⟨"A", .spade⟩, ⟨"2", .spade⟩, ⟨"3", .spade⟩, ⟨"4", .spade⟩,
   ⟨"5", .spade⟩, ⟨"6", .spade⟩, ⟨"7", .spade⟩, ⟨"8", .spade⟩,
   ⟨"9", .spade⟩, ⟨"T", .spade⟩, ⟨"J", .spade⟩, ⟨"Q", .spade⟩,
   ⟨"K", .spade⟩,

   ⟨"A", .heart⟩, ⟨"2", .heart⟩, ⟨"3", .heart⟩, ⟨"4", .heart⟩,
   ⟨"5", .heart⟩, ⟨"6", .heart⟩, ⟨"7", .heart⟩, ⟨"8", .heart⟩,
   ⟨"9", .heart⟩, ⟨"T", .heart⟩, ⟨"J", .heart⟩, ⟨"Q", .heart⟩,
   ⟨"K", .heart⟩,

   ⟨"A", .diamond⟩, ⟨"2", .diamond⟩, ⟨"3", .diamond⟩, ⟨"4", .diamond⟩,
   ⟨"5", .diamond⟩, ⟨"6", .diamond⟩, ⟨"7", .diamond⟩, ⟨"8", .diamond⟩,
   ⟨"9", .diamond⟩, ⟨"T", .diamond⟩, ⟨"J", .diamond⟩, ⟨"Q", .diamond⟩,
   ⟨"K", .diamond⟩,

   ⟨"A", .club⟩, ⟨"2", .club⟩, ⟨"3", .club⟩, ⟨"4", .club⟩,
   ⟨"5", .club⟩, ⟨"6", .club⟩, ⟨"7", .club⟩, ⟨"8", .club⟩,
   ⟨"9", .club⟩, ⟨"T", .club⟩, ⟨"J", .club⟩, ⟨"Q", .club⟩,
   ⟨"K", .club⟩
  ]

/-- The global `deckSize`. -/
def deckSize : Nat := 52

/-- The global `dealerHitInterval`. -/
def dealerHitInterval : Nat := 700

/-- C `atoi` on a label without sign or leading blanks (all deck labels are such):
the decimal value of the leading digits. -/
def atoi (s : String) : Nat :=
  (s.toList.takeWhile Char.isDigit).foldl (fun n c => 10 * n + (c.toNat - 48)) 0

/-- The label `deck[idx].value`; an index outside the table (undefined behaviour
in the source) reads the empty label. -/
def deckValue (idx : Nat) : String :=
  match deck.get? idx with
  | some card => card.value
  | none => ""

/-! ## Hand evaluation -/

/-- One iteration of the `for` loop of `calculateHandValue`, on `(total, aceCount)`. -/
def addCard (acc : Nat × Nat) (idx : Nat) : Nat × Nat :=
  let val := deckValue idx
  if val == "A" then
    (acc.1 + 11, acc.2 + 1)
  else if val == "K" || val == "Q" || val == "J" || val == "T" then
    (acc.1 + 10, acc.2)
  else
    (acc.1 + atoi val, acc.2)

/-- The loop `while (total > 21 && aceCount > 0) total -= 10, aceCount--`.
The subtraction only runs under `total > 21`, so it never truncates. -/
def adjustAces : Nat → Nat → Nat
  | total, 0 => total
  | total, aceCount + 1 => if total > 21 then adjustAces (total - 10) aceCount else total

/-- The source's `calculateHandValue(handToCalculate, drawnCards)` on the list of the
first `drawnCards` entries. -/
def calculateHandValue (hand : List Nat) : Nat :=
  let acc := hand.foldl addCard (0, 0)
  adjustAces acc.1 acc.2

/-! ## Game state -/

/-- The source's `enum DISPLAY_BJState`. -/
inductive DISPLAY_BJState where
  | CARD
  | WIN
  | BUST
  | LOSE
  | TIE
  deriving DecidableEq, Repr

/-- What the engine sends to the game display, one constructor per kind of call. -/
inductive Notice where
  /-- Call `DISPLAY_BJ.clearDisplay()`. -/
  | clear
  /-- Call `updateScoreDisplay(playerValue, dealerValue)`. -/
  | score (playerValue dealerValue : Nat)
  /-- Call `drawHand(hand, numCards, 20)`. -/
  | cards (hand : List Nat)
  /-- Call `drawBitmapImage(bust)`. -/
  | bustImage
  /-- Call `drawBitmapImage(win)`. -/
  | winImage
  /-- Call `drawBitmapImage(lost)`. -/
  | lostImage
  /-- Call `printText(DISPLAY_BJ, "STAND!", 0, 0, 1)`. -/
  | standText
  /-- Call `printText(DISPLAY_BJ, "Dealer stands", 5, 55, 1)`. -/
  | dealerStands
  /-- Call `printText(DISPLAY_BJ, "Dealer bust", 5, 55, 1)`. -/
  | dealerBust
  deriving DecidableEq, Repr

/-- The blackjack globals of the sketch. -/
structure State where
  /-- The entries `playerHand[0 .. numDrawnPlayer)`. -/
  playerHand : List Nat
  /-- The entries `dealerHand[0 .. numDrawnDealer)`. -/
  dealerHand : List Nat
  dealerHitting : Bool
  lastDealerHitTime : Nat
  currentState : DISPLAY_BJState
  /-- The display calls made so far, oldest first. -/
  shown : List Notice
  deriving DecidableEq, Repr

/-- The globals as initialised at program start. -/
def initialState : State where
  playerHand := []
  dealerHand := []
  dealerHitting := false
  lastDealerHitTime := 0
  currentState := DISPLAY_BJState.CARD
  shown := []

/-- The counter `numDrawnPlayer`. -/
def State.numDrawnPlayer (s : State) : Nat := s.playerHand.length

/-- The counter `numDrawnDealer`. -/
def State.numDrawnDealer (s : State) : Nat := s.dealerHand.length

/-- Append one display call to the record. -/
def State.notify (s : State) (n : Notice) : State :=
  { s with shown := s.shown ++ [n] }

/-! ## Environment -/

/-- Arduino `random(howbig)` on one raw generator output. -/
def random (howbig : Nat) (raw : Nat) : Nat := raw % howbig

/-- Subtraction of two `unsigned long` values (32 bits). -/
def unsignedSub (a b : Nat) : Nat := (a + 2 ^ 32 - b % 2 ^ 32) % 2 ^ 32

/-- The value `millis()` returns when the board has been up for `uptime` ms. -/
def millis (uptime : Nat) : Nat := uptime % 2 ^ 32

/-! ## Operations -/

/-- The rejection loop shared by `hit` and `finishDealerHitting`:
`while (!ok)` draw `random(deckSize)` and scan the hand for it.  Returns the accepted
index and the unused generator outputs. -/
def drawUnique (hand : List Nat) : List Nat → Option (Nat × List Nat)
  | [] => none
  | raw :: rest =>
    let cardIndex := random deckSize raw
    if hand.contains cardIndex then drawUnique hand rest else some (cardIndex, rest)

/-- The source's `determineDealerHand`: one unchecked `random(52)` appended to the
dealer hand; returns the new state, the dealer value and the unused outputs. -/
def determineDealerHand (s : State) : List Nat → Option (State × Nat × List Nat)
  | [] => none
  | raw :: rest =>
    let index := random 52 raw
    let s1 := { s with dealerHand := s.dealerHand ++ [index] }
    some (s1, calculateHandValue s1.dealerHand, rest)

/-- The source's `hit`. -/
def hit (s : State) (rng : List Nat) : Option (State × List Nat) :=
  if s.numDrawnPlayer ≥ 10 then some (s, rng)
  else
    match drawUnique s.playerHand rng with
    | none => none
    | some (cardIndex, rng1) =>
      let s1 := { s with playerHand := s.playerHand ++ [cardIndex] }
      let afterDealer : Option (State × List Nat) :=
        if s1.numDrawnDealer = 0 then
          match determineDealerHand s1 rng1 with
          | none => none
          | some (s2, _, rng2) => some (s2, rng2)
        else some (s1, rng1)
      match afterDealer with
      | none => none
      | some (s2, rng2) =>
        let s3 := s2.notify Notice.clear
        let playerValue := calculateHandValue s3.playerHand
        let dealerValue := calculateHandValue s3.dealerHand
        let s4 := s3.notify (Notice.score playerValue dealerValue)
        let s5 := s4.notify (Notice.cards s4.playerHand)
        let s6 := if playerValue > 21 then s5.notify Notice.bustImage else s5
        some (s6, rng2)

/-- The source's `startDealerHitting`, with `now` the value of `millis()`. -/
def startDealerHitting (s : State) (now : Nat) : State :=
  let s1 := { s with dealerHitting := true, lastDealerHitTime := now }
  s1.notify (Notice.cards s1.dealerHand)

/-- The source's `stand`. -/
def stand (s : State) (now : Nat) : State :=
  startDealerHitting (s.notify Notice.standText) now

/-- The source's `resetGame`. -/
def resetGame (s : State) : State :=
  let s1 := { s with playerHand := [], dealerHand := [] }
  s1.notify Notice.clear

/-- The source's `handleGameEnd`. -/
def handleGameEnd (s : State) : State :=
  let playerVal := calculateHandValue s.playerHand
  let dealerVal := calculateHandValue s.dealerHand
  let s1 : State :=
    if playerVal > 21 then { s with currentState := DISPLAY_BJState.LOSE }
    else if dealerVal > 21 then { s with currentState := DISPLAY_BJState.WIN }
    else if playerVal > dealerVal then { s with currentState := DISPLAY_BJState.WIN }
    else if playerVal < dealerVal then { s with currentState := DISPLAY_BJState.LOSE }
    else { s with currentState := DISPLAY_BJState.TIE }
  match s1.currentState with
  | DISPLAY_BJState.WIN => s1.notify Notice.winImage
  | DISPLAY_BJState.LOSE => s1.notify Notice.lostImage
  | _ => s1

/-- The source's `finishDealerHitting`, with `now` the value of `millis()`. -/
def finishDealerHitting (s : State) (now : Nat) (rng : List Nat) : Option (State × List Nat) :=
  if !s.dealerHitting then some (s, rng)
  else if unsignedSub now s.lastDealerHitTime < dealerHitInterval then some (s, rng)
  else
    let dealerValue := calculateHandValue s.dealerHand
    if dealerValue ≥ 17 && dealerValue ≤ 21 then
      let s1 := { s with dealerHitting := false }
      some (handleGameEnd (s1.notify Notice.dealerStands), rng)
    else if dealerValue > 21 then
      let s1 := { s with dealerHitting := false }
      some (handleGameEnd (s1.notify Notice.dealerBust), rng)
    else
      match drawUnique s.dealerHand rng with
      | none => none
      | some (cardIndex, rng1) =>
        let s1 := { s with dealerHand := s.dealerHand ++ [cardIndex] }
        let playerValue := calculateHandValue s1.playerHand
        let dealerValue1 := calculateHandValue s1.dealerHand
        let s2 := s1.notify (Notice.score playerValue dealerValue1)
        let s3 := s2.notify (Notice.cards s2.dealerHand)
        some ({ s3 with lastDealerHitTime := now }, rng1)

/-- The source's `updateBlackJack`, the per-iteration entry point. -/
def updateBlackJack (s : State) (now : Nat) (rng : List Nat) : Option (State × List Nat) :=
  finishDealerHitting s now rng

/-! ## Runs of the engine -/

/-- What one pass of `loop()` can ask of the engine.  The times are board uptimes;
the engine sees them through `millis`. -/
inductive Action where
  | hit
  | stand (uptime : Nat)
  | resetGame
  | tick (uptime : Nat)
  deriving DecidableEq, Repr

/-- Perform one action. -/
def step (s : State) (rng : List Nat) : Action → Option (State × List Nat)
  | Action.hit => hit s rng
  | Action.stand uptime => some (stand s (millis uptime), rng)
  | Action.resetGame => some (resetGame s, rng)
  | Action.tick uptime => updateBlackJack s (millis uptime) rng

/-- Perform a sequence of actions from a state. -/
def run (s : State) (rng : List Nat) : List Action → Option (State × List Nat)
  | [] => some (s, rng)
  | a :: rest =>
    match step s rng a with
    | none => none
    | some (s1, rng1) => run s1 rng1 rest

/-! ## Specification-side notions -/

/-- A deck index holds an Ace: the first of the 13 ranks of its suit. -/
def isAce (idx : Nat) : Bool := idx % 13 == 0

/-- Blackjack points of a deck index: ranks 2-9 at face value, T, J, Q, K as 10,
an Ace as 11 when `high` and as 1 otherwise. -/
def pointsOf (idx : Nat) (high : Bool) : Nat :=
  if idx % 13 = 0 then (if high then 11 else 1)
  else if idx % 13 ≤ 8 then idx % 13 + 1
  else 10

/-- Total of a hand under a choice, card by card, of how an Ace counts (`true`: 11,
`false` or no entry: 1).  The entries at cards that are not Aces are ignored. -/
def countedTotal : List Nat → List Bool → Nat
  | [], _ => 0
  | c :: cs, [] => pointsOf c false + countedTotal cs []
  | c :: cs, b :: bs => pointsOf c b + countedTotal cs bs

/-- Total of a hand with every Ace counted as 1. -/
def hardTotal (hand : List Nat) : Nat := (hand.map (pointsOf · false)).sum

/-- Total of a hand with every Ace counted as 11. -/
def softTotal (hand : List Nat) : Nat := (hand.map (pointsOf · true)).sum

/-- Number of Aces in a hand. -/
def aceCount (hand : List Nat) : Nat := hand.countP isAce

/-- The total reached from the all-Aces-as-11 sum after re-counting `k` Aces as 1. -/
def recounted (hand : List Nat) (k : Nat) : Nat := softTotal hand - 10 * k

/-- The four deck indices of rank `r` (0: Ace, 1: "2", ..., 8: "9", 9: T, 10: J,
11: Q, 12: K), one per suit. -/
def cardsOfRank (r : Nat) : List Nat := [r, r + 13, r + 26, r + 39]

/-- The value `v` is the best blackjack total of `hand`: the largest total of at most 21 that
some way of counting each Ace as 1 or 11 gives, when there is one, and otherwise the
total with every Ace counted as 1. -/
def IsBestTotal (hand : List Nat) (v : Nat) : Prop :=
  ((∃ ch, countedTotal hand ch ≤ 21) →
    v ≤ 21 ∧ (∃ ch, countedTotal hand ch = v) ∧
    ∀ ch, countedTotal hand ch ≤ 21 → countedTotal hand ch ≤ v) ∧
  ((∀ ch, 21 < countedTotal hand ch) → v = hardTotal hand)

/-- The wording of §4.2: `v` is the minimal total of at most 21 among the totals
reached by re-counting Aces, or the smallest total when all of them exceed 21. -/
def IsMinimalRecount (hand : List Nat) (v : Nat) : Prop :=
  (∃ k, k ≤ aceCount hand ∧ v = recounted hand k) ∧
  ((∃ k, k ≤ aceCount hand ∧ recounted hand k ≤ 21) →
    v ≤ 21 ∧ ∀ k, k ≤ aceCount hand → recounted hand k ≤ 21 → v ≤ recounted hand k) ∧
  ((∀ k, k ≤ aceCount hand → 21 < recounted hand k) →
    ∀ k, k ≤ aceCount hand → v ≤ recounted hand k)

/-- As `IsMinimalRecount`, with the maximal total of at most 21 in place of the
minimal one. -/
def IsMaximalRecount (hand : List Nat) (v : Nat) : Prop :=
  (∃ k, k ≤ aceCount hand ∧ v = recounted hand k) ∧
  ((∃ k, k ≤ aceCount hand ∧ recounted hand k ≤ 21) →
    v ≤ 21 ∧ ∀ k, k ≤ aceCount hand → recounted hand k ≤ 21 → recounted hand k ≤ v) ∧
  ((∀ k, k ≤ aceCount hand → 21 < recounted hand k) →
    ∀ k, k ≤ aceCount hand → v ≤ recounted hand k)

/-- The Outcome Resolver of §4.5, with the outcomes named as in `DISPLAY_BJState`. -/
def resolve (playerTotal dealerTotal : Nat) : DISPLAY_BJState :=
  if playerTotal > 21 then DISPLAY_BJState.LOSE
  else if dealerTotal > 21 then DISPLAY_BJState.WIN
  else if playerTotal > dealerTotal then DISPLAY_BJState.WIN
  else if playerTotal < dealerTotal then DISPLAY_BJState.LOSE
  else DISPLAY_BJState.TIE

/-- The result banner `handleGameEnd` draws for an outcome: one for a win, one for a
loss, none for a tie. -/
def resultNotices : DISPLAY_BJState → List Notice
  | DISPLAY_BJState.WIN => [Notice.winImage]
  | DISPLAY_BJState.LOSE => [Notice.lostImage]
  | _ => []

/-- Both hands hold distinct deck indices, at most 10 each. -/
def HandsOk (s : State) : Prop :=
  s.playerHand.Nodup ∧ s.dealerHand.Nodup ∧ (∀ c ∈ s.playerHand, c < 52) ∧
  (∀ c ∈ s.dealerHand, c < 52) ∧ s.playerHand.length ≤ 10 ∧ s.dealerHand.length ≤ 10

/-! ## Sample states -/

/-- The state after `hit(); stand()` at time 0 with the generator giving 9 (T of spades,
to the player) and 12 (K of spades, to the dealer): the dealer is acting. -/
def dealerTurnState : State where
  playerHand := [9]
  dealerHand := [12]
  dealerHitting := true
  lastDealerHitTime := 0
  currentState := DISPLAY_BJState.CARD
  shown := [Notice.clear, Notice.score 10 10, Notice.cards [9], Notice.standText,
    Notice.cards [12]]

/-- The state two ticks after `dealerTurnState`: the dealer drew the 9 of spades (index 8)
at 700 and stood on 19 at 1400; the player's 10 lost. -/
def roundOverState : State where
  playerHand := [9]
  dealerHand := [12, 8]
  dealerHitting := false
  lastDealerHitTime := 700
  currentState := DISPLAY_BJState.LOSE
  shown := [Notice.clear, Notice.score 10 10, Notice.cards [9], Notice.standText,
    Notice.cards [12], Notice.score 10 19, Notice.cards [12, 8], Notice.dealerStands,
    Notice.lostImage]

/-- The state after two hits, a stand and two dealer draws in which the generator
repeats cards already held (raw 52 is index 0 again, raw 65 is index 13 again). -/
def twoDrawsState : State where
  playerHand := [0, 13]
  dealerHand := [13, 0, 5]
  dealerHitting := true
  lastDealerHitTime := 1500
  currentState := DISPLAY_BJState.CARD
  shown := [Notice.clear, Notice.score 11 11, Notice.cards [0], Notice.clear,
    Notice.score 12 11, Notice.cards [0, 13], Notice.standText, Notice.cards [13],
    Notice.score 12 12, Notice.cards [13, 0], Notice.score 12 18, Notice.cards [13, 0, 5]]

/-- A dealer hand of 10 cards: the four 2s, a 3, the four Aces and another 3. -/
def tenCards : List Nat := [1, 14, 27, 40, 2, 0, 13, 26, 39, 15]

/-- The state after `stand()` on the empty table and ten dealer draws, 700 ms apart,
that deal `tenCards` in order (totals 2, 4, 6, 8, 11, 12, 13, 14, 15, 18). -/
def tenCardDealerState : State where
  playerHand := []
  dealerHand := tenCards
  dealerHitting := true
  lastDealerHitTime := 7000
  currentState := DISPLAY_BJState.CARD
  shown := Notice.standText :: Notice.cards [] ::
    (List.range 10).flatMap (fun i =>
      [Notice.score 0 (calculateHandValue (tenCards.take (i + 1))),
       Notice.cards (tenCards.take (i + 1))])

/-- Ticks at 700, 1400, ..., `700 * n`. -/
def ticksEvery700 (n : Nat) : List Action :=
  (List.range n).map (fun i => Action.tick (700 * (i + 1)))

/-- A player on 20 (T and J of spades) against a dealer K, awaiting the player. -/
def twentyState : State where
  playerHand := [9, 10]
  dealerHand := [12]
  dealerHitting := false
  lastDealerHitTime := 0
  currentState := DISPLAY_BJState.CARD
  shown := []

/-- The state `hit()` leaves from `twentyState` on drawing the Q of spades: 30, bust. -/
def bustState : State where
  playerHand := [9, 10, 11]
  dealerHand := [12]
  dealerHitting := false
  lastDealerHitTime := 0
  currentState := DISPLAY_BJState.CARD
  shown := [Notice.clear, Notice.score 30 10, Notice.cards [9, 10, 11], Notice.bustImage]

/-- The state one tick after `dealerTurnState`: at 700 the dealer drew the 9 of spades
(index 8) and is on 19, still acting. -/
def dealerDrewState : State where
  playerHand := [9]
  dealerHand := [12, 8]
  dealerHitting := true
  lastDealerHitTime := 700
  currentState := DISPLAY_BJState.CARD
  shown := [Notice.clear, Notice.score 10 10, Notice.cards [9], Notice.standText,
    Notice.cards [12], Notice.score 10 19, Notice.cards [12, 8]]

/-- A dealer acting on 23 (K, 6 and 7 of spades) against a player 10. -/
def dealerOverState : State where
  playerHand := [9]
  dealerHand := [12, 5, 6]
  dealerHitting := true
  lastDealerHitTime := 700
  currentState := DISPLAY_BJState.CARD
  shown := []

/-- The state `dealerOverState` is left in by the next tick: dealer bust, player wins. -/
def dealerBustState : State where
  playerHand := [9]
  dealerHand := [12, 5, 6]
  dealerHitting := false
  lastDealerHitTime := 700
  currentState := DISPLAY_BJState.WIN
  shown := [Notice.dealerBust, Notice.winImage]

/-- The state `hit()` leaves from `dealerTurnState` on drawing the 4 of spades. -/
def dealerTurnHitState : State where
  playerHand := [9, 3]
  dealerHand := [12]
  dealerHitting := true
  lastDealerHitTime := 0
  currentState := DISPLAY_BJState.CARD
  shown := [Notice.clear, Notice.score 10 10, Notice.cards [9], Notice.standText,
    Notice.cards [12], Notice.clear, Notice.score 14 10, Notice.cards [9, 3]]

/-- A player holding the 10 cards of `tenCards`, the dealer acting. -/
def fullHandState : State where
  playerHand := tenCards
  dealerHand := [12]
  dealerHitting := true
  lastDealerHitTime := 0
  currentState := DISPLAY_BJState.CARD
  shown := []

/-- A dealer turn whose last action was read 300 ms before `millis()` wraps around. -/
def beforeWrapState : State where
  playerHand := [9]
  dealerHand := [12]
  dealerHitting := true
  lastDealerHitTime := 2 ^ 32 - 300
  currentState := DISPLAY_BJState.CARD
  shown := []

/-! ## Theorems -/

theorem addCard_zero : ∀ idx, idx < 52 →
    addCard (0, 0) idx = (pointsOf idx true, if isAce idx then 1 else 0) := by
  decide

theorem addCard_shift (acc : Nat × Nat) (idx : Nat) :
    addCard acc idx = (acc.1 + (addCard (0, 0) idx).1, acc.2 + (addCard (0, 0) idx).2) := by
  unfold addCard
  simp only []
  split_ifs <;> simp

theorem addCard_eq (acc : Nat × Nat) (idx : Nat) (h : idx < 52) :
    addCard acc idx = (acc.1 + pointsOf idx true, acc.2 + if isAce idx then 1 else 0) := by
  rw [addCard_shift, addCard_zero idx h]

theorem pointsOf_true (idx : Nat) :
    pointsOf idx true = pointsOf idx false + if isAce idx then 10 else 0 := by
  unfold pointsOf isAce
  by_cases h : idx % 13 = 0 <;> simp [h]

theorem foldl_addCard (hand : List Nat) (hr : ∀ c ∈ hand, c < 52) (acc : Nat × Nat) :
    hand.foldl addCard acc = (acc.1 + softTotal hand, acc.2 + aceCount hand) := by
  induction hand generalizing acc with
  | nil => simp [softTotal, aceCount]
  | cons c cs ih =>
    have hc : c < 52 := hr c (List.mem_cons_self _ _)
    have hcs : ∀ x ∈ cs, x < 52 := fun x hx => hr x (List.mem_cons_of_mem _ hx)
    rw [List.foldl_cons, ih hcs, addCard_eq _ _ hc]
    simp only [softTotal, aceCount, List.map_cons, List.sum_cons, List.countP_cons]
    ext <;> simp <;> omega

theorem softTotal_eq (hand : List Nat) : softTotal hand = hardTotal hand + 10 * aceCount hand := by
  induction hand with
  | nil => simp [softTotal, hardTotal, aceCount]
  | cons c cs ih =>
    simp only [softTotal, hardTotal, aceCount, List.map_cons, List.sum_cons, List.countP_cons] at *
    rw [ih, pointsOf_true]
    split_ifs <;> omega

theorem calculateHandValue_eq (hand : List Nat) (hr : ∀ c ∈ hand, c < 52) :
    calculateHandValue hand = adjustAces (softTotal hand) (aceCount hand) := by
  unfold calculateHandValue
  simp [foldl_addCard hand hr]

/-- The value left by the adjusting loop: the first of `total, total - 10, ...` that is
at most 21, or the last one when the Aces run out. -/
theorem adjustAces_spec (n : Nat) : ∀ total, ∃ j, j ≤ n ∧ 10 * j ≤ total ∧
    adjustAces total n + 10 * j = total ∧ (adjustAces total n ≤ 21 ∨ j = n) ∧
    ∀ i, i < j → 21 < total - 10 * i := by
  induction n with
  | zero => intro total; exact ⟨0, by simp [adjustAces]⟩
  | succ n ih =>
    intro total
    by_cases h : total > 21
    · obtain ⟨j, hj, h10, heq, hor, hall⟩ := ih (total - 10)
      refine ⟨j + 1, by omega, by omega, ?_, ?_, ?_⟩
      · simp only [adjustAces, h, if_true]; omega
      · simp only [adjustAces, h, if_true]; omega
      · intro i hi
        cases i with
        | zero => simpa using h
        | succ i =>
          have := hall i (by omega)
          omega
    · refine ⟨0, by omega, by omega, ?_, ?_, ?_⟩
      · simp [adjustAces, h]
      · left; simp only [adjustAces, h, if_false]; omega
      · intro i hi; omega

theorem countedTotal_nil_choice (hand : List Nat) : countedTotal hand [] = hardTotal hand := by
  induction hand with
  | nil => simp [countedTotal, hardTotal]
  | cons c cs ih => simp only [countedTotal, ih, hardTotal, List.map_cons, List.sum_cons]

theorem countedTotal_form (hand : List Nat) : ∀ ch : List Bool,
    ∃ k, k ≤ aceCount hand ∧ countedTotal hand ch = hardTotal hand + 10 * k := by
  induction hand with
  | nil => intro ch; exact ⟨0, by simp [aceCount, countedTotal, hardTotal]⟩
  | cons c cs ih =>
    intro ch
    cases ch with
    | nil => exact ⟨0, by omega, by rw [countedTotal_nil_choice]; rfl⟩
    | cons b bs =>
      obtain ⟨k, hk, hkeq⟩ := ih bs
      simp only [countedTotal, hkeq, hardTotal, aceCount, List.map_cons, List.sum_cons,
        List.countP_cons] at *
      cases b with
      | false => exact ⟨k, by omega, by omega⟩
      | true =>
        rw [pointsOf_true]
        by_cases ha : isAce c = true
        · exact ⟨k + 1, by simp [ha]; omega, by simp [ha]; omega⟩
        · exact ⟨k, by omega, by simp [ha]; omega⟩

theorem countedTotal_reach (hand : List Nat) : ∀ k, k ≤ aceCount hand →
    ∃ ch : List Bool, countedTotal hand ch = hardTotal hand + 10 * k := by
  induction hand with
  | nil => intro k hk; exact ⟨[], by simp [aceCount] at hk; simp [countedTotal, hardTotal, hk]⟩
  | cons c cs ih =>
    intro k hk
    simp only [aceCount, List.countP_cons] at hk
    by_cases ha : isAce c = true
    · cases k with
      | zero => exact ⟨[], by rw [countedTotal_nil_choice]; rfl⟩
      | succ k =>
        obtain ⟨ch, hch⟩ := ih k (by simp [ha] at hk; exact hk)
        refine ⟨true :: ch, ?_⟩
        simp only [countedTotal, hch, hardTotal, List.map_cons, List.sum_cons]
        rw [pointsOf_true]
        simp [ha]; omega
    · obtain ⟨ch, hch⟩ := ih k (by simp [ha] at hk; exact hk)
      refine ⟨false :: ch, ?_⟩
      simp only [countedTotal, hch, hardTotal, List.map_cons, List.sum_cons]
      omega

/-- The evaluator in closed form: some number `m` of Aces stays at 11, the value is at
most 21 unless `m = 0`, and counting one more Ace as 11 would exceed 21. -/
theorem calculateHandValue_form (hand : List Nat) (hr : ∀ c ∈ hand, c < 52) :
    ∃ m, m ≤ aceCount hand ∧ calculateHandValue hand = hardTotal hand + 10 * m ∧
      (calculateHandValue hand ≤ 21 ∨ m = 0) ∧
      ∀ k, m < k → k ≤ aceCount hand → 21 < hardTotal hand + 10 * k := by
  obtain ⟨j, hj, h10, heq, hor, hall⟩ := adjustAces_spec (aceCount hand) (softTotal hand)
  rw [← calculateHandValue_eq hand hr, softTotal_eq] at *
  refine ⟨aceCount hand - j, by omega, by omega, ?_, ?_⟩
  · rcases hor with h | h
    · exact Or.inl h
    · right; omega
  · intro k hk hka
    have := hall (aceCount hand - k) (by omega)
    omega

theorem softTotal_le (hand : List Nat) : softTotal hand ≤ 11 * hand.length := by
  induction hand with
  | nil => simp [softTotal]
  | cons c cs ih =>
    simp only [softTotal, List.map_cons, List.sum_cons, List.length_cons] at *
    have hc : pointsOf c true ≤ 11 := by
      unfold pointsOf
      split_ifs <;> omega
    omega

theorem calculateHandValue_le_softTotal (hand : List Nat) (hr : ∀ c ∈ hand, c < 52) :
    calculateHandValue hand ≤ softTotal hand := by
  obtain ⟨m, hm, hval, _, _⟩ := calculateHandValue_form hand hr
  rw [softTotal_eq]
  omega

theorem recounted_eq (hand : List Nat) (k : Nat) (hk : k ≤ aceCount hand) :
    recounted hand k = hardTotal hand + 10 * (aceCount hand - k) := by
  unfold recounted
  rw [softTotal_eq]
  omega

theorem aceCount_eq_zero (hand : List Nat) (h : ∀ c ∈ hand, isAce c = false) :
    aceCount hand = 0 := by
  unfold aceCount
  rw [List.countP_eq_zero]
  intro c hc
  simp [h c hc]

/-- C2: for every hand of deck indices below 52, of any length, `calculateHandValue`
returns the best blackjack total: the largest total of at most 21 obtainable by counting
each Ace as 1 or 11 when there is one, and otherwise the total with every Ace counted
as 1.  A hand without an Ace evaluates to the plain sum of its rank values, the empty
hand to 0, and (whatever the suits) [A] to 11, [A,A] to 12, [A,K] to 21, [A,A,9] to 21
and [K,Q,2] to 22. -/
theorem calculateHandValue_best (hand : List Nat) (hr : ∀ c ∈ hand, c < 52) :
    IsBestTotal hand (calculateHandValue hand) ∧
    ((∀ c ∈ hand, isAce c = false) →
      calculateHandValue hand = (hand.map (pointsOf · false)).sum) ∧
    calculateHandValue [] = 0 ∧
    (∀ a ∈ cardsOfRank 0, calculateHandValue [a] = 11) ∧
    (∀ a ∈ cardsOfRank 0, ∀ b ∈ cardsOfRank 0, calculateHandValue [a, b] = 12) ∧
    (∀ a ∈ cardsOfRank 0, ∀ k ∈ cardsOfRank 12, calculateHandValue [a, k] = 21) ∧
    (∀ a ∈ cardsOfRank 0, ∀ b ∈ cardsOfRank 0, ∀ n ∈ cardsOfRank 8,
      calculateHandValue [a, b, n] = 21) ∧
    (∀ k ∈ cardsOfRank 12, ∀ q ∈ cardsOfRank 11, ∀ t ∈ cardsOfRank 1,
      calculateHandValue [k, q, t] = 22) := by
  obtain ⟨m, hm, hval, hor, hnext⟩ := calculateHandValue_form hand hr
  refine ⟨⟨?_, ?_⟩, ?_, by decide, by decide, by decide, by decide, by decide, by decide⟩
  · rintro ⟨ch0, hch0⟩
    obtain ⟨k0, hk0, hk0eq⟩ := countedTotal_form hand ch0
    have hle : calculateHandValue hand ≤ 21 := by
      rcases hor with h | h
      · exact h
      · omega
    refine ⟨hle, ?_, ?_⟩
    · obtain ⟨ch, hch⟩ := countedTotal_reach hand m hm
      exact ⟨ch, by omega⟩
    · intro ch hch
      obtain ⟨k, hk, hkeq⟩ := countedTotal_form hand ch
      by_cases hlt : m < k
      · have := hnext k hlt hk
        omega
      · omega
  · intro hall
    obtain ⟨ch, hch⟩ := countedTotal_reach hand m hm
    have := hall ch
    rcases hor with h | h
    · omega
    · omega
  · intro hno
    have h0 := aceCount_eq_zero hand hno
    have : m = 0 := by omega
    rw [hval, this]
    simp [hardTotal]

/-- C3 (as amended): for every hand of deck indices below 52, `calculateHandValue`
returns the maximal total of at most 21 among the totals reached from the
all-Aces-as-11 sum by re-counting Aces as 1, or, when all of them exceed 21, the
smallest of them. -/
theorem calculateHandValue_maximal_recount (hand : List Nat) (hr : ∀ c ∈ hand, c < 52) :
    IsMaximalRecount hand (calculateHandValue hand) := by
  obtain ⟨m, hm, hval, hor, hnext⟩ := calculateHandValue_form hand hr
  refine ⟨⟨aceCount hand - m, by omega, ?_⟩, ?_, ?_⟩
  · rw [recounted_eq hand _ (by omega), hval]
    congr 2
    omega
  · rintro ⟨k0, hk0, hk0le⟩
    rw [recounted_eq hand k0 hk0] at hk0le
    have hle : calculateHandValue hand ≤ 21 := by
      rcases hor with h | h
      · exact h
      · omega
    refine ⟨hle, ?_⟩
    intro k hk hkle
    rw [recounted_eq hand k hk] at hkle ⊢
    by_cases hlt : m < aceCount hand - k
    · have := hnext (aceCount hand - k) hlt (by omega)
      omega
    · omega
  · intro hall k hk
    have h1 := hall (aceCount hand - m) (by omega)
    rw [recounted_eq hand _ (by omega)] at h1
    have h2 : aceCount hand - (aceCount hand - m) = m := by omega
    rw [h2] at h1
    rw [recounted_eq hand k hk]
    rcases hor with h | h
    · omega
    · omega

/-- C3 (as worded) fails on the single Ace of spades: the evaluator returns 11 although
re-counting the Ace reaches 1, a smaller total of at most 21. -/
theorem calculateHandValue_not_minimal_recount :
    (∀ c ∈ [0], c < 52) ∧ calculateHandValue [0] = 11 ∧ recounted [0] 1 = 1 ∧
    ¬ IsMinimalRecount [0] (calculateHandValue [0]) := by
  refine ⟨by decide, by decide, by decide, ?_⟩
  intro h
  have h1 := (h.2.1 ⟨1, by decide, by decide⟩).2 1 (by decide) (by decide)
  revert h1
  decide

/-- The best total on the hand A, A, 9 and the plain sum on K, Q, 2. -/
theorem calculateHandValue_best_witness :
    (∀ c ∈ [0, 13, 8], c < 52) ∧ IsBestTotal [0, 13, 8] (calculateHandValue [0, 13, 8]) ∧
    (∀ c ∈ [12, 11, 1], c < 52) ∧ (∀ c ∈ [12, 11, 1], isAce c = false) ∧
    calculateHandValue [12, 11, 1] = ([12, 11, 1].map (pointsOf · false)).sum :=
  ⟨by decide, (calculateHandValue_best [0, 13, 8] (by decide)).1, by decide, by decide,
    (calculateHandValue_best [12, 11, 1] (by decide)).2.1 (by decide)⟩

/-- The maximal re-counted total on the hand of two Aces. -/
theorem calculateHandValue_maximal_recount_witness :
    (∀ c ∈ [0, 13], c < 52) ∧ IsMaximalRecount [0, 13] (calculateHandValue [0, 13]) :=
  ⟨by decide, calculateHandValue_maximal_recount [0, 13] (by decide)⟩

theorem handleGameEnd_eq (s : State) :
    handleGameEnd s =
      { s with
        currentState := resolve (calculateHandValue s.playerHand) (calculateHandValue s.dealerHand)
        shown := s.shown ++
          resultNotices (resolve (calculateHandValue s.playerHand) (calculateHandValue s.dealerHand)) } := by
  unfold handleGameEnd resolve
  simp only []
  split_ifs <;> simp [State.notify, resultNotices]

theorem unsignedSub_millis (t0 t1 : Nat) (h : t0 ≤ t1) :
    unsignedSub (millis t1) (millis t0) = (t1 - t0) % 2 ^ 32 := by
  unfold unsignedSub millis
  omega

theorem drawUnique_some (hand : List Nat) : ∀ (rng : List Nat) (c : Nat) (rest : List Nat),
    drawUnique hand rng = some (c, rest) → c ∉ hand ∧ c < 52 ∧ rest.length < rng.length := by
  intro rng
  induction rng with
  | nil => intro c rest h; simp [drawUnique] at h
  | cons raw tl ih =>
    intro c rest h
    simp only [drawUnique] at h
    split_ifs at h with hc
    · obtain ⟨h1, h2, h3⟩ := ih c rest h
      exact ⟨h1, h2, by simp; omega⟩
    · simp only [Option.some.injEq, Prod.mk.injEq] at h
      obtain ⟨rfl, rfl⟩ := h
      refine ⟨by simpa using hc, ?_, by simp⟩
      unfold random deckSize
      omega

theorem drawUnique_returns (hand : List Nat) : ∀ rng : List Nat,
    (∃ raw ∈ rng, random deckSize raw ∉ hand) → (drawUnique hand rng).isSome = true := by
  intro rng
  induction rng with
  | nil => rintro ⟨raw, hraw, _⟩; simp at hraw
  | cons raw tl ih =>
    rintro ⟨r, hr, hfresh⟩
    simp only [drawUnique]
    split_ifs with hc
    · apply ih
      rcases List.mem_cons.mp hr with rfl | hr
      · exact absurd (by simpa using hc) hfresh
      · exact ⟨r, hr, hfresh⟩
    · rfl

/-- A tick before the interval has elapsed returns at once. -/
theorem finishDealerHitting_early (s : State) (now : Nat) (rng : List Nat)
    (h : unsignedSub now s.lastDealerHitTime < dealerHitInterval) :
    finishDealerHitting s now rng = some (s, rng) := by
  unfold finishDealerHitting
  simp [h]

/-- A tick with the dealer turn not started returns at once. -/
theorem finishDealerHitting_idle (s : State) (now : Nat) (rng : List Nat)
    (h : s.dealerHitting = false) : finishDealerHitting s now rng = some (s, rng) := by
  unfold finishDealerHitting
  simp [h]

/-- A tick that finds the dealer at 17 or more ends the dealer turn through
`handleGameEnd`, with the text for the branch taken, and draws nothing. -/
theorem finishDealerHitting_stop (s : State) (now : Nat) (rng : List Nat)
    (hd : s.dealerHitting = true)
    (he : ¬ unsignedSub now s.lastDealerHitTime < dealerHitInterval)
    (ht : 17 ≤ calculateHandValue s.dealerHand) :
    finishDealerHitting s now rng =
      some (handleGameEnd ({ s with dealerHitting := false }.notify
        (if calculateHandValue s.dealerHand ≤ 21 then Notice.dealerStands
         else Notice.dealerBust)), rng) := by
  unfold finishDealerHitting
  by_cases h21 : calculateHandValue s.dealerHand ≤ 21
  · simp [hd, he, ht, h21]
  · have h21' : 21 < calculateHandValue s.dealerHand := by omega
    simp [hd, he, h21, h21']

/-- A tick that finds the dealer below 17 runs the rejection loop and appends the
accepted card. -/
theorem finishDealerHitting_draw (s : State) (now : Nat) (rng : List Nat)
    (hd : s.dealerHitting = true)
    (he : ¬ unsignedSub now s.lastDealerHitTime < dealerHitInterval)
    (ht : calculateHandValue s.dealerHand < 17) :
    finishDealerHitting s now rng =
      (drawUnique s.dealerHand rng).map (fun r =>
        ({ s with
            dealerHand := s.dealerHand ++ [r.1]
            shown := s.shown ++
              [Notice.score (calculateHandValue s.playerHand)
                 (calculateHandValue (s.dealerHand ++ [r.1])),
               Notice.cards (s.dealerHand ++ [r.1])]
            lastDealerHitTime := now }, r.2)) := by
  unfold finishDealerHitting
  have h1 : ¬ 17 ≤ calculateHandValue s.dealerHand := by omega
  have h2 : ¬ 21 < calculateHandValue s.dealerHand := by omega
  simp only [hd, he, h1, h2]
  cases hdu : drawUnique s.dealerHand rng with
  | none => simp
  | some r => simp [State.notify]

/-- The state a drawing tick returns. -/
theorem finishDealerHitting_draw_some (s : State) (now : Nat) (rng : List Nat)
    (hd : s.dealerHitting = true)
    (he : ¬ unsignedSub now s.lastDealerHitTime < dealerHitInterval)
    (ht : calculateHandValue s.dealerHand < 17) (s1 : State) (rng1 : List Nat)
    (hfin : finishDealerHitting s now rng = some (s1, rng1)) :
    ∃ c, c ∉ s.dealerHand ∧ c < 52 ∧ s1.dealerHand = s.dealerHand ++ [c] ∧
      s1.playerHand = s.playerHand ∧ s1.lastDealerHitTime = now ∧
      s1.dealerHitting = true ∧ s1.currentState = s.currentState := by
  rw [finishDealerHitting_draw s now rng hd he ht] at hfin
  cases hdu : drawUnique s.dealerHand rng with
  | none => simp [hdu] at hfin
  | some r =>
    obtain ⟨c, rest⟩ := r
    obtain ⟨hnot, hlt, _⟩ := drawUnique_some s.dealerHand rng c rest hdu
    simp only [hdu, Option.map_some', Option.some.injEq, Prod.mk.injEq] at hfin
    obtain ⟨rfl, rfl⟩ := hfin
    exact ⟨c, hnot, hlt, rfl, rfl, rfl, hd, rfl⟩

/-- C1: for every player hand and dealer hand, `handleGameEnd` records the outcome
`resolve p d` of the two evaluated totals and leaves both hands as they are; a tick
that concludes the dealer turn (dealer total at least 17) records exactly that outcome;
`resolve` gives LOSE at (22,20), WIN at (18,22) and (20,18), LOSE at (17,20), TIE at
(19,19), and one of WIN, LOSE, TIE at every pair of totals. -/
theorem handleGameEnd_records_resolve (s : State) :
    (handleGameEnd s).currentState =
        resolve (calculateHandValue s.playerHand) (calculateHandValue s.dealerHand) ∧
    (handleGameEnd s).playerHand = s.playerHand ∧
    (handleGameEnd s).dealerHand = s.dealerHand ∧
    (∀ now rng, s.dealerHitting = true →
      ¬ unsignedSub now s.lastDealerHitTime < dealerHitInterval →
      17 ≤ calculateHandValue s.dealerHand →
      (finishDealerHitting s now rng).map (fun r => r.1.currentState) =
        some (resolve (calculateHandValue s.playerHand) (calculateHandValue s.dealerHand))) ∧
    resolve 22 20 = DISPLAY_BJState.LOSE ∧
    resolve 18 22 = DISPLAY_BJState.WIN ∧
    resolve 20 18 = DISPLAY_BJState.WIN ∧
    resolve 17 20 = DISPLAY_BJState.LOSE ∧
    resolve 19 19 = DISPLAY_BJState.TIE ∧
    (∀ p d, resolve p d = DISPLAY_BJState.WIN ∨ resolve p d = DISPLAY_BJState.LOSE ∨
      resolve p d = DISPLAY_BJState.TIE) := by
  refine ⟨by rw [handleGameEnd_eq], by rw [handleGameEnd_eq], by rw [handleGameEnd_eq], ?_,
    by decide, by decide, by decide, by decide, by decide, ?_⟩
  · intro now rng hd he ht
    rw [finishDealerHitting_stop s now rng hd he ht, handleGameEnd_eq]
    simp [State.notify]
  · intro p d
    unfold resolve
    split_ifs <;> simp

/-- C8: for every state, clock value and generator, a tick at which the unsigned
32-bit difference `now - lastDealerHitTime` is below 700 changes nothing; a tick that
changes the state therefore has a difference of at least 700; and when the last dealer
action was read at uptime `t0` and the tick comes at uptime `t1 ≥ t0` less than 700
later, nothing changes even if `millis()` wrapped around in between. -/
theorem finishDealerHitting_waits (s : State) (now : Nat) (rng : List Nat) :
    (unsignedSub now s.lastDealerHitTime < 700 → finishDealerHitting s now rng = some (s, rng)) ∧
    (∀ s1 rng1, finishDealerHitting s now rng = some (s1, rng1) → s1 ≠ s →
      700 ≤ unsignedSub now s.lastDealerHitTime) ∧
    (∀ t0 t1, t0 ≤ t1 → t1 - t0 < 700 → s.lastDealerHitTime = millis t0 → now = millis t1 →
      finishDealerHitting s now rng = some (s, rng)) := by
  have key : unsignedSub now s.lastDealerHitTime < 700 →
      finishDealerHitting s now rng = some (s, rng) :=
    fun h => finishDealerHitting_early s now rng h
  refine ⟨key, ?_, ?_⟩
  · intro s1 rng1 hfin hne
    by_contra hlt
    rw [key (by omega)] at hfin
    simp only [Option.some.injEq, Prod.mk.injEq] at hfin
    exact hne hfin.1.symm
  · intro t0 t1 hle hlt hlast hnow
    apply key
    rw [hlast, hnow, unsignedSub_millis t0 t1 hle]
    exact lt_of_le_of_lt (Nat.mod_le _ _) hlt

/-- C9: for every state with the dealer acting and every tick at which the 700-unit
interval has elapsed, with `t` the dealer total: if `17 ≤ t ≤ 21` the tick clears
`dealerHitting`, shows "Dealer stands", records the resolved outcome and draws nothing;
if `t > 21` it does the same with "Dealer bust"; if `t < 17` it returns as soon as the
generator yields a card not in the dealer hand, and then it has appended exactly that one
card (a deck index not already in the dealer hand), left the player hand and the outcome
unchanged, set `lastDealerHitTime` to this tick's time and kept `dealerHitting`. -/
theorem finishDealerHitting_rule (s : State) (now : Nat) (rng : List Nat)
    (hd : s.dealerHitting = true)
    (he : ¬ unsignedSub now s.lastDealerHitTime < dealerHitInterval) :
    (17 ≤ calculateHandValue s.dealerHand → calculateHandValue s.dealerHand ≤ 21 →
      finishDealerHitting s now rng =
        some ({ s with
          dealerHitting := false
          currentState :=
            resolve (calculateHandValue s.playerHand) (calculateHandValue s.dealerHand)
          shown := s.shown ++ Notice.dealerStands ::
            resultNotices
              (resolve (calculateHandValue s.playerHand) (calculateHandValue s.dealerHand)) },
          rng)) ∧
    (21 < calculateHandValue s.dealerHand →
      finishDealerHitting s now rng =
        some ({ s with
          dealerHitting := false
          currentState :=
            resolve (calculateHandValue s.playerHand) (calculateHandValue s.dealerHand)
          shown := s.shown ++ Notice.dealerBust ::
            resultNotices
              (resolve (calculateHandValue s.playerHand) (calculateHandValue s.dealerHand)) },
          rng)) ∧
    (calculateHandValue s.dealerHand < 17 →
      ((∃ raw ∈ rng, random deckSize raw ∉ s.dealerHand) →
        (finishDealerHitting s now rng).isSome = true) ∧
      ∀ s1 rng1, finishDealerHitting s now rng = some (s1, rng1) →
        ∃ c, c ∉ s.dealerHand ∧ c < 52 ∧ s1.dealerHand = s.dealerHand ++ [c] ∧
          s1.playerHand = s.playerHand ∧ s1.lastDealerHitTime = now ∧
          s1.dealerHitting = true ∧ s1.currentState = s.currentState) := by
  refine ⟨?_, ?_, ?_⟩
  · intro h17 h21
    rw [finishDealerHitting_stop s now rng hd he h17, handleGameEnd_eq]
    simp [State.notify, h21]
  · intro h21
    rw [finishDealerHitting_stop s now rng hd he (by omega), handleGameEnd_eq]
    have : ¬ calculateHandValue s.dealerHand ≤ 21 := by omega
    simp [State.notify, this]
  · intro h17
    refine ⟨?_, finishDealerHitting_draw_some s now rng hd he h17⟩
    intro hfresh
    rw [finishDealerHitting_draw s now rng hd he h17]
    have := drawUnique_returns s.dealerHand rng hfresh
    simpa using this

theorem drawUnique_cons (hand : List Nat) (raw : Nat) (rest : List Nat) :
    drawUnique hand (raw :: rest) =
      if hand.contains (random deckSize raw) then drawUnique hand rest
      else some (random deckSize raw, rest) := rfl

theorem hit_full (s : State) (rng : List Nat) (h : 10 ≤ s.playerHand.length) :
    hit s rng = some (s, rng) := by
  unfold hit State.numDrawnPlayer
  simp [h]

/-- What a `hit` that draws leaves behind. -/
theorem hit_some (s : State) (rng : List Nat) (s1 : State) (rng1 : List Nat)
    (hlen : s.playerHand.length < 10) (h : hit s rng = some (s1, rng1)) :
    ∃ c, c ∉ s.playerHand ∧ c < 52 ∧ s1.playerHand = s.playerHand ++ [c] ∧
      (s.dealerHand = [] → ∃ d, d < 52 ∧ s1.dealerHand = [d]) ∧
      (s.dealerHand ≠ [] → s1.dealerHand = s.dealerHand) ∧
      s1.dealerHitting = s.dealerHitting ∧ s1.lastDealerHitTime = s.lastDealerHitTime ∧
      s1.currentState = s.currentState ∧
      s1.shown = s.shown ++
        [Notice.clear,
         Notice.score (calculateHandValue s1.playerHand) (calculateHandValue s1.dealerHand),
         Notice.cards s1.playerHand] ++
        (if calculateHandValue s1.playerHand > 21 then [Notice.bustImage] else []) := by
  unfold hit State.numDrawnPlayer at h
  have hlen' : ¬ s.playerHand.length ≥ 10 := by omega
  simp only [hlen', if_false] at h
  cases hdu : drawUnique s.playerHand rng with
  | none => simp [hdu] at h
  | some r =>
    obtain ⟨c, rest⟩ := r
    obtain ⟨hnot, hlt, _⟩ := drawUnique_some s.playerHand rng c rest hdu
    simp only [hdu, State.numDrawnDealer] at h
    by_cases hde : s.dealerHand = []
    · simp only [hde, List.length_nil, if_true] at h
      cases rest with
      | nil => simp [determineDealerHand] at h
      | cons raw tl =>
        simp only [determineDealerHand, Option.some.injEq, Prod.mk.injEq] at h
        obtain ⟨rfl, rfl⟩ := h
        refine ⟨c, hnot, hlt, ?_, ?_, ?_, ?_, ?_, ?_, ?_⟩
        · split_ifs <;> rfl
        · intro _
          refine ⟨random 52 raw, by unfold random; omega, ?_⟩
          split_ifs <;> simp [State.notify, hde]
        · intro hne; exact absurd hde hne
        · split_ifs <;> rfl
        · split_ifs <;> rfl
        · split_ifs <;> rfl
        · by_cases hb : calculateHandValue (s.playerHand ++ [c]) > 21 <;>
            simp [hb, State.notify, hde]
    · have hne : ¬ s.dealerHand.length = 0 := by
        intro h0; exact hde (List.length_eq_zero.mp h0)
      simp only [hne, if_false, Option.some.injEq, Prod.mk.injEq] at h
      obtain ⟨rfl, rfl⟩ := h
      refine ⟨c, hnot, hlt, ?_, ?_, ?_, ?_, ?_, ?_, ?_⟩
      · split_ifs <;> rfl
      · intro h0; exact absurd h0 hde
      · intro _; split_ifs <;> rfl
      · split_ifs <;> rfl
      · split_ifs <;> rfl
      · split_ifs <;> rfl
      · by_cases hb : calculateHandValue (s.playerHand ++ [c]) > 21 <;>
          simp [hb, State.notify]

/-- The card the rejection loop accepts is the first generator output whose index is
not in the hand; the outputs before it are skipped, the ones after it are left. -/
theorem drawUnique_first (hand : List Nat) : ∀ (rng : List Nat) (c : Nat) (rest : List Nat),
    drawUnique hand rng = some (c, rest) →
    ∃ skipped raw, rng = skipped ++ raw :: rest ∧ c = random deckSize raw ∧
      ∀ r ∈ skipped, random deckSize r ∈ hand := by
  intro rng
  induction rng with
  | nil => intro c rest h; simp [drawUnique] at h
  | cons raw tl ih =>
    intro c rest h
    rw [drawUnique_cons] at h
    split_ifs at h with hc
    · obtain ⟨skipped, raw1, heq, hc1, hall⟩ := ih c rest h
      refine ⟨raw :: skipped, raw1, by rw [heq]; rfl, hc1, ?_⟩
      intro r hr
      rcases List.mem_cons.mp hr with rfl | hr
      · simpa using hc
      · exact hall r hr
    · simp only [Option.some.injEq, Prod.mk.injEq] at h
      obtain ⟨rfl, rfl⟩ := h
      exact ⟨[], raw, rfl, rfl, by simp⟩

/-- The card a drawing `hit` appends is the one its rejection loop accepted. -/
theorem hit_some_draw (s : State) (rng : List Nat) (s1 : State) (rng1 : List Nat)
    (hlen : s.playerHand.length < 10) (h : hit s rng = some (s1, rng1)) :
    ∃ c rest, drawUnique s.playerHand rng = some (c, rest) ∧
      s1.playerHand = s.playerHand ++ [c] := by
  unfold hit State.numDrawnPlayer at h
  have hlen1 : ¬ s.playerHand.length ≥ 10 := by omega
  simp only [hlen1, if_false] at h
  cases hdu : drawUnique s.playerHand rng with
  | none => simp [hdu] at h
  | some r =>
    obtain ⟨c, rest⟩ := r
    refine ⟨c, rest, rfl, ?_⟩
    simp only [hdu, State.numDrawnDealer] at h
    by_cases hde : s.dealerHand = []
    · simp only [hde, List.length_nil, if_true] at h
      cases rest with
      | nil => simp [determineDealerHand] at h
      | cons raw tl =>
        simp only [determineDealerHand, Option.some.injEq, Prod.mk.injEq] at h
        obtain ⟨rfl, rfl⟩ := h
        split_ifs <;> rfl
    · have hne : ¬ s.dealerHand.length = 0 := by
        intro h0; exact hde (List.length_eq_zero.mp h0)
      simp only [hne, if_false, Option.some.injEq, Prod.mk.injEq] at h
      obtain ⟨rfl, rfl⟩ := h
      split_ifs <;> rfl

/-- The call `hit` returns when the generator yields a card not in the player hand before its
last output (the output after it serves the dealer's first card). -/
theorem hit_returns (s : State) (rng : List Nat)
    (h : ∃ raw ∈ rng.dropLast, random deckSize raw ∉ s.playerHand) :
    (hit s rng).isSome = true := by
  by_cases hlen : 10 ≤ s.playerHand.length
  · rw [hit_full s rng hlen]; rfl
  · have key : ∀ rng : List Nat, (∃ raw ∈ rng.dropLast, random deckSize raw ∉ s.playerHand) →
        ∃ c raw tl, drawUnique s.playerHand rng = some (c, raw :: tl) := by
      intro rng
      induction rng with
      | nil => rintro ⟨raw, hraw, _⟩; simp at hraw
      | cons r tl ih =>
        rintro ⟨raw, hraw, hfresh⟩
        cases tl with
        | nil => simp at hraw
        | cons r2 tl2 =>
          simp only [List.dropLast_cons₂, List.mem_cons] at hraw
          rw [drawUnique_cons]
          split_ifs with hc
          · apply ih
            rcases hraw with rfl | hraw
            · exact absurd (by simpa using hc) hfresh
            · exact ⟨raw, hraw, hfresh⟩
          · exact ⟨_, r2, tl2, rfl⟩
    obtain ⟨c, raw, tl, hdu⟩ := key rng h
    unfold hit State.numDrawnPlayer State.numDrawnDealer
    simp only [hlen, if_false, hdu, determineDealerHand]
    split_ifs <;> rfl

theorem countP_rank_le (hand : List Nat) (hn : hand.Nodup) (hr : ∀ c ∈ hand, c < 52)
    (r : Nat) : hand.countP (fun c => c % 13 == r) ≤ 4 := by
  rw [List.countP_eq_length_filter]
  have hsub : hand.filter (fun c => c % 13 == r) ⊆ cardsOfRank r := by
    intro c hc
    obtain ⟨hmem, hrank⟩ := List.mem_filter.mp hc
    have hlt := hr c hmem
    have hrank' : c % 13 = r := by simpa using hrank
    simp only [cardsOfRank, List.mem_cons, List.mem_singleton, List.not_mem_nil, or_false]
    omega
  have := (List.subperm_of_subset (hn.filter _) hsub).length_le
  simpa [cardsOfRank] using this

theorem pointsOf_lower (c : Nat) :
    3 ≤ pointsOf c false + 2 * (if c % 13 = 0 then 1 else 0) + (if c % 13 = 1 then 1 else 0) := by
  unfold pointsOf
  split_ifs <;> omega

theorem hardTotal_lower (hand : List Nat) :
    3 * hand.length ≤
      hardTotal hand + 2 * hand.countP (fun c => c % 13 == 0) +
        hand.countP (fun c => c % 13 == 1) := by
  induction hand with
  | nil => simp [hardTotal]
  | cons c cs ih =>
    simp only [hardTotal, List.map_cons, List.sum_cons, List.countP_cons, List.length_cons,
      beq_iff_eq] at *
    have hc := pointsOf_lower c
    split_ifs at * <;> omega

/-- Any 10 distinct deck cards evaluate to at least 17. -/
theorem ten_cards_ge_17 (hand : List Nat) (hn : hand.Nodup) (hr : ∀ c ∈ hand, c < 52)
    (hlen : 10 ≤ hand.length) : 17 ≤ calculateHandValue hand := by
  obtain ⟨m, _, hval, _, _⟩ := calculateHandValue_form hand hr
  have h0 := countP_rank_le hand hn hr 0
  have h1 := countP_rank_le hand hn hr 1
  have h2 := hardTotal_lower hand
  omega

theorem finishDealerHitting_hands (s : State) (now : Nat) (rng : List Nat) (s1 : State)
    (rng1 : List Nat) (h : finishDealerHitting s now rng = some (s1, rng1)) :
    s1.playerHand = s.playerHand ∧
    (s1.dealerHand = s.dealerHand ∨
      (calculateHandValue s.dealerHand < 17 ∧
        ∃ c, c ∉ s.dealerHand ∧ c < 52 ∧ s1.dealerHand = s.dealerHand ++ [c])) := by
  by_cases hd : s.dealerHitting = true
  · by_cases he : unsignedSub now s.lastDealerHitTime < dealerHitInterval
    · rw [finishDealerHitting_early s now rng he] at h
      simp only [Option.some.injEq, Prod.mk.injEq] at h
      obtain ⟨rfl, rfl⟩ := h
      exact ⟨rfl, Or.inl rfl⟩
    · by_cases ht : 17 ≤ calculateHandValue s.dealerHand
      · rw [finishDealerHitting_stop s now rng hd he ht, handleGameEnd_eq] at h
        simp only [Option.some.injEq, Prod.mk.injEq] at h
        obtain ⟨rfl, rfl⟩ := h
        exact ⟨rfl, Or.inl rfl⟩
      · have ht' : calculateHandValue s.dealerHand < 17 := by omega
        obtain ⟨c, h1, h2, h3, h4, _⟩ :=
          finishDealerHitting_draw_some s now rng hd he ht' s1 rng1 h
        exact ⟨h4, Or.inr ⟨ht', c, h1, h2, h3⟩⟩
  · rw [finishDealerHitting_idle s now rng (by simpa using hd)] at h
    simp only [Option.some.injEq, Prod.mk.injEq] at h
    obtain ⟨rfl, rfl⟩ := h
    exact ⟨rfl, Or.inl rfl⟩

theorem handsOk_initial : HandsOk initialState := by
  simp [HandsOk, initialState]

theorem nodup_concat_of_not_mem (l : List Nat) (c : Nat) (hn : l.Nodup) (hc : c ∉ l) :
    (l ++ [c]).Nodup := by
  rw [List.nodup_append]
  refine ⟨hn, List.nodup_singleton c, ?_⟩
  intro x hx hx'
  rw [List.mem_singleton] at hx'
  exact hc (hx' ▸ hx)

theorem handsOk_hit (s : State) (rng : List Nat) (s1 : State) (rng1 : List Nat)
    (hok : HandsOk s) (h : hit s rng = some (s1, rng1)) : HandsOk s1 := by
  obtain ⟨pn, dn, pr, dr, pl, dl⟩ := hok
  by_cases hlen : 10 ≤ s.playerHand.length
  · rw [hit_full s rng hlen] at h
    simp only [Option.some.injEq, Prod.mk.injEq] at h
    obtain ⟨rfl, rfl⟩ := h
    exact ⟨pn, dn, pr, dr, pl, dl⟩
  · obtain ⟨c, hnot, hlt, hp, hd0, hd1, _⟩ := hit_some s rng s1 rng1 (by omega) h
    have hdealer : s1.dealerHand.Nodup ∧ (∀ x ∈ s1.dealerHand, x < 52) ∧
        s1.dealerHand.length ≤ 10 := by
      by_cases hde : s.dealerHand = []
      · obtain ⟨d, hd, hdeq⟩ := hd0 hde
        rw [hdeq]
        exact ⟨List.nodup_singleton d, by simpa using hd, by simp⟩
      · rw [hd1 hde]
        exact ⟨dn, dr, dl⟩
    refine ⟨?_, hdealer.1, ?_, hdealer.2.1, ?_, hdealer.2.2⟩
    · rw [hp]; exact nodup_concat_of_not_mem _ _ pn hnot
    · rw [hp]
      intro x hx
      rcases List.mem_append.mp hx with hx | hx
      · exact pr x hx
      · rw [List.mem_singleton] at hx; omega
    · rw [hp]; simp; omega

theorem handsOk_tick (s : State) (now : Nat) (rng : List Nat) (s1 : State) (rng1 : List Nat)
    (hok : HandsOk s) (h : finishDealerHitting s now rng = some (s1, rng1)) : HandsOk s1 := by
  obtain ⟨pn, dn, pr, dr, pl, dl⟩ := hok
  obtain ⟨hp, hd⟩ := finishDealerHitting_hands s now rng s1 rng1 h
  rcases hd with hd | ⟨h17, c, hnot, hlt, hd⟩
  · rw [HandsOk, hp, hd]
    exact ⟨pn, dn, pr, dr, pl, dl⟩
  · have hlen : s.dealerHand.length < 10 := by
      by_contra hge
      have := ten_cards_ge_17 s.dealerHand dn dr (by omega)
      omega
    rw [HandsOk, hp, hd]
    refine ⟨pn, nodup_concat_of_not_mem _ _ dn hnot, pr, ?_, pl, by simp; omega⟩
    intro x hx
    rcases List.mem_append.mp hx with hx | hx
    · exact dr x hx
    · rw [List.mem_singleton] at hx; omega

theorem handsOk_step (s : State) (rng : List Nat) (a : Action) (s1 : State) (rng1 : List Nat)
    (hok : HandsOk s) (h : step s rng a = some (s1, rng1)) : HandsOk s1 := by
  cases a with
  | hit => exact handsOk_hit s rng s1 rng1 hok h
  | stand uptime =>
    simp only [step, Option.some.injEq, Prod.mk.injEq] at h
    obtain ⟨rfl, rfl⟩ := h
    exact hok
  | resetGame =>
    simp only [step, Option.some.injEq, Prod.mk.injEq] at h
    obtain ⟨rfl, rfl⟩ := h
    simp [HandsOk, resetGame, State.notify]
  | tick uptime => exact handsOk_tick s (millis uptime) rng s1 rng1 hok h

theorem handsOk_run (acts : List Action) : ∀ (s : State) (rng : List Nat) (s1 : State)
    (rng1 : List Nat), HandsOk s → run s rng acts = some (s1, rng1) → HandsOk s1 := by
  induction acts with
  | nil =>
    intro s rng s1 rng1 hok h
    simp only [run, Option.some.injEq, Prod.mk.injEq] at h
    obtain ⟨rfl, rfl⟩ := h
    exact hok
  | cons a rest ih =>
    intro s rng s1 rng1 hok h
    simp only [run] at h
    cases hst : step s rng a with
    | none => simp [hst] at h
    | some r =>
      obtain ⟨s2, rng2⟩ := r
      simp only [hst] at h
      exact ih s2 rng2 s1 rng1 (handsOk_step s rng a s2 rng2 hok hst) h

/-- C4: `resetGame` empties both hands but leaves `dealerHitting`, `lastDealerHitTime`
and `currentState` as they were; after `hit(); stand(); resetGame()` the dealer turn is
still in progress and the tick at 700 draws a dealer card into the emptied hand, and a
reset after a lost round keeps the recorded LOSE. -/
theorem resetGame_keeps_dealer_turn :
    (∀ s : State, (resetGame s).playerHand = [] ∧ (resetGame s).dealerHand = [] ∧
      (resetGame s).dealerHitting = s.dealerHitting ∧
      (resetGame s).lastDealerHitTime = s.lastDealerHitTime ∧
      (resetGame s).currentState = s.currentState) ∧
    run initialState [9, 12] [Action.hit, Action.stand 0] = some (dealerTurnState, []) ∧
    (resetGame dealerTurnState).dealerHitting = true ∧
    (finishDealerHitting (resetGame dealerTurnState) 700 [8]).map
      (fun r => (r.1.dealerHand, r.1.dealerHitting)) = some ([8], true) ∧
    run initialState [9, 12, 8]
      [Action.hit, Action.stand 0, Action.tick 700, Action.tick 1400] =
      some (roundOverState, []) ∧
    (resetGame roundOverState).currentState = DISPLAY_BJState.LOSE := by
  refine ⟨fun s => ⟨rfl, rfl, rfl, rfl, rfl⟩, by decide, by decide, by decide, by decide,
    by decide⟩

/-- C5 (as worded) fails: in the state after `hit(); stand()` the dealer is acting and
`hit()` still appends a card to the player hand; in the state after the round was lost
`hit()` appends a card as well. -/
theorem hit_draws_outside_player_turn :
    run initialState [9, 12] [Action.hit, Action.stand 0] = some (dealerTurnState, []) ∧
    dealerTurnState.dealerHitting = true ∧ dealerTurnState.playerHand = [9] ∧
    (hit dealerTurnState [3]).map (fun r => r.1.playerHand) = some [9, 3] ∧
    run initialState [9, 12, 8]
      [Action.hit, Action.stand 0, Action.tick 700, Action.tick 1400] =
      some (roundOverState, []) ∧
    roundOverState.currentState = DISPLAY_BJState.LOSE ∧ roundOverState.playerHand = [9] ∧
    (hit roundOverState [3]).map (fun r => r.1.playerHand) = some [9, 3] := by
  decide

/-- C5 (as amended): `hit()` is a no-op exactly when the player hand already holds 10
cards, whatever the round state: it then returns the state and the generator unchanged.
With fewer than 10 cards, also while the dealer is acting or after an outcome was
recorded, `hit()` draws: it returns as soon as the generator yields an index not in the
player hand (with one more output left for the dealer's first card), and whenever it
returns it has appended to the player hand exactly the card of the first generator
output whose index the hand did not hold, a deck index below 52, so the result is never
the state it started from; `dealerHitting`, `lastDealerHitTime` and `currentState` stay
as they were. -/
theorem hit_noop_when_full (s : State) (rng : List Nat) :
    (10 ≤ s.playerHand.length → hit s rng = some (s, rng)) ∧
    (s.playerHand.length < 10 →
      ((∃ raw ∈ rng.dropLast, random deckSize raw ∉ s.playerHand) →
        (hit s rng).isSome = true) ∧
      ∀ s1 rng1, hit s rng = some (s1, rng1) →
        (∃ skipped raw rest, rng = skipped ++ raw :: rest ∧
          (∀ r ∈ skipped, random deckSize r ∈ s.playerHand) ∧
          random deckSize raw ∉ s.playerHand ∧ random deckSize raw < 52 ∧
          s1.playerHand = s.playerHand ++ [random deckSize raw]) ∧
        s1.playerHand.length = s.playerHand.length + 1 ∧ s1 ≠ s ∧
        s1.dealerHitting = s.dealerHitting ∧
        s1.lastDealerHitTime = s.lastDealerHitTime ∧
        s1.currentState = s.currentState) := by
  refine ⟨hit_full s rng, ?_⟩
  intro hlen
  refine ⟨hit_returns s rng, ?_⟩
  intro s1 rng1 h
  obtain ⟨c, rest, hdu, hp⟩ := hit_some_draw s rng s1 rng1 hlen h
  obtain ⟨hnot, hlt, _⟩ := drawUnique_some s.playerHand rng c rest hdu
  obtain ⟨skipped, raw, heq, hc, hall⟩ := drawUnique_first s.playerHand rng c rest hdu
  obtain ⟨_, _, _, _, _, _, h1, h2, h3, _⟩ := hit_some s rng s1 rng1 hlen h
  subst hc
  refine ⟨⟨skipped, raw, rest, heq, hall, hnot, hlt, hp⟩, by rw [hp]; simp, ?_, h1, h2, h3⟩
  intro hs
  rw [hs] at hp
  have := congrArg List.length hp
  simp at this

/-- C6: `hit()` never closes the round or starts the dealer turn.  It returns once the
generator yields a card not in the player hand (with one more output left for the dealer's
first card), and whenever it returns, `dealerHitting`, `lastDealerHitTime` and
`currentState` are as before; on a full hand nothing changes at all, and otherwise it has
appended one card to the player hand and, exactly when the dealer hand was empty, one card
to the dealer hand; a total above 21 only adds the bust image to the display. -/
theorem hit_frame (s : State) (rng : List Nat) :
    ((∃ raw ∈ rng.dropLast, random deckSize raw ∉ s.playerHand) → (hit s rng).isSome = true) ∧
    ∀ s1 rng1, hit s rng = some (s1, rng1) →
      s1.dealerHitting = s.dealerHitting ∧ s1.lastDealerHitTime = s.lastDealerHitTime ∧
      s1.currentState = s.currentState ∧
      (10 ≤ s.playerHand.length → s1 = s) ∧
      (s.playerHand.length < 10 →
        (∃ c, c ∉ s.playerHand ∧ s1.playerHand = s.playerHand ++ [c]) ∧
        (s.dealerHand = [] → ∃ d, s1.dealerHand = [d]) ∧
        (s.dealerHand ≠ [] → s1.dealerHand = s.dealerHand) ∧
        s1.shown = s.shown ++
          [Notice.clear,
           Notice.score (calculateHandValue s1.playerHand) (calculateHandValue s1.dealerHand),
           Notice.cards s1.playerHand] ++
          (if calculateHandValue s1.playerHand > 21 then [Notice.bustImage] else [])) := by
  refine ⟨hit_returns s rng, ?_⟩
  intro s1 rng1 h
  by_cases hlen : 10 ≤ s.playerHand.length
  · rw [hit_full s rng hlen] at h
    simp only [Option.some.injEq, Prod.mk.injEq] at h
    obtain ⟨rfl, rfl⟩ := h
    exact ⟨rfl, rfl, rfl, fun _ => rfl, fun hlt => absurd hlen (by omega)⟩
  · obtain ⟨c, hnot, _, hp, hd0, hd1, h1, h2, h3, h4⟩ := hit_some s rng s1 rng1 (by omega) h
    refine ⟨h1, h2, h3, fun hge => absurd hge hlen, fun _ => ⟨⟨c, hnot, hp⟩, ?_, hd1, h4⟩⟩
    intro hde
    obtain ⟨d, _, hd⟩ := hd0 hde
    exact ⟨d, hd⟩

/-- C7: in every state reached from the initial state by any sequence of `hit()`,
`stand()`, `resetGame()` and ticks, with any generator outputs and any clock values,
neither the player hand nor the dealer hand holds the same card index twice. -/
theorem run_hands_nodup (rng : List Nat) (acts : List Action) (s : State) (rng1 : List Nat)
    (h : run initialState rng acts = some (s, rng1)) :
    s.playerHand.Nodup ∧ s.dealerHand.Nodup := by
  obtain ⟨pn, dn, _⟩ := handsOk_run acts initialState rng s rng1 handsOk_initial h
  exact ⟨pn, dn⟩

/-- C10: in every state reached from the initial state by any sequence of `hit()`,
`stand()`, `resetGame()` and ticks, both hands hold at most 10 card indices; `hit()` on a
10-card player hand changes nothing; and a 10-card dealer hand evaluates to at least 17,
so that no tick appends an 11th card. -/
theorem run_hands_bounded (rng : List Nat) (acts : List Action) (s : State) (rng1 : List Nat)
    (h : run initialState rng acts = some (s, rng1)) :
    s.playerHand.length ≤ 10 ∧ s.dealerHand.length ≤ 10 ∧
    (s.playerHand.length = 10 → ∀ rng0, hit s rng0 = some (s, rng0)) ∧
    (s.dealerHand.length = 10 → 17 ≤ calculateHandValue s.dealerHand ∧
      ∀ now rng0 s1 rng2, finishDealerHitting s now rng0 = some (s1, rng2) →
        s1.dealerHand = s.dealerHand) := by
  obtain ⟨pn, dn, pr, dr, pl, dl⟩ := handsOk_run acts initialState rng s rng1 handsOk_initial h
  refine ⟨pl, dl, fun hp rng0 => hit_full s rng0 (by omega), ?_⟩
  intro hd
  have h17 := ten_cards_ge_17 s.dealerHand dn dr (by omega)
  refine ⟨h17, ?_⟩
  intro now rng0 s1 rng2 hfin
  rcases (finishDealerHitting_hands s now rng0 s1 rng2 hfin).2 with hsame | ⟨hlt, _⟩
  · exact hsame
  · omega

/-- The tick on which a dealer on 19 stands records LOSE for a player on 10. -/
theorem handleGameEnd_records_resolve_witness :
    dealerDrewState.dealerHitting = true ∧
    ¬ unsignedSub 1400 dealerDrewState.lastDealerHitTime < dealerHitInterval ∧
    17 ≤ calculateHandValue dealerDrewState.dealerHand ∧
    (finishDealerHitting dealerDrewState 1400 []).map (fun r => r.1.currentState) =
      some (resolve (calculateHandValue dealerDrewState.playerHand)
        (calculateHandValue dealerDrewState.dealerHand)) ∧
    resolve (calculateHandValue dealerDrewState.playerHand)
        (calculateHandValue dealerDrewState.dealerHand) = DISPLAY_BJState.LOSE :=
  ⟨by decide, by decide, by decide,
    (handleGameEnd_records_resolve dealerDrewState).2.2.2.1 1400 [] (by decide) (by decide)
      (by decide),
    by decide⟩

/-- A hit on a full hand changes nothing; a hit during the dealer turn, with the
generator first repeating the held T of spades, returns and appends the 4 of spades. -/
theorem hit_noop_when_full_witness :
    10 ≤ fullHandState.playerHand.length ∧ hit fullHandState [77] = some (fullHandState, [77]) ∧
    dealerTurnState.playerHand.length < 10 ∧
    (∃ raw ∈ [9, 3, 0].dropLast, random deckSize raw ∉ dealerTurnState.playerHand) ∧
    (hit dealerTurnState [9, 3, 0]).isSome = true ∧
    hit dealerTurnState [9, 3] = some (dealerTurnHitState, []) ∧
    dealerTurnHitState.playerHand.length = dealerTurnState.playerHand.length + 1 ∧
    dealerTurnHitState ≠ dealerTurnState ∧
    dealerTurnHitState.dealerHitting = dealerTurnState.dealerHitting :=
  ⟨by decide, (hit_noop_when_full fullHandState [77]).1 (by decide), by decide,
    ⟨3, by decide, by decide⟩,
    ((hit_noop_when_full dealerTurnState [9, 3, 0]).2 (by decide)).1
      ⟨3, by decide, by decide⟩,
    by decide,
    (((hit_noop_when_full dealerTurnState [9, 3]).2 (by decide)).2 dealerTurnHitState []
      (by decide)).2.1,
    (((hit_noop_when_full dealerTurnState [9, 3]).2 (by decide)).2 dealerTurnHitState []
      (by decide)).2.2.1,
    (((hit_noop_when_full dealerTurnState [9, 3]).2 (by decide)).2 dealerTurnHitState []
      (by decide)).2.2.2.1⟩

/-- A hit that takes the player from 20 to 30 leaves timer and outcome alone. -/
theorem hit_frame_witness :
    (∃ raw ∈ [11, 0].dropLast, random deckSize raw ∉ twentyState.playerHand) ∧
    (hit twentyState [11, 0]).isSome = true ∧
    hit twentyState [11] = some (bustState, []) ∧
    21 < calculateHandValue bustState.playerHand ∧
    bustState.dealerHitting = twentyState.dealerHitting ∧
    bustState.lastDealerHitTime = twentyState.lastDealerHitTime ∧
    bustState.currentState = twentyState.currentState :=
  ⟨⟨11, by decide, by decide⟩,
    (hit_frame twentyState [11, 0]).1 ⟨11, by decide, by decide⟩,
    by decide, by decide,
    ((hit_frame twentyState [11]).2 bustState [] (by decide)).1,
    ((hit_frame twentyState [11]).2 bustState [] (by decide)).2.1,
    ((hit_frame twentyState [11]).2 bustState [] (by decide)).2.2.1⟩

/-- A run in which the generator repeats held cards ends with distinct hands. -/
theorem run_hands_nodup_witness :
    run initialState [0, 13, 52, 13, 65, 0, 5]
      [Action.hit, Action.hit, Action.stand 5, Action.tick 705, Action.tick 1500] =
      some (twoDrawsState, []) ∧
    twoDrawsState.playerHand.Nodup ∧ twoDrawsState.dealerHand.Nodup :=
  ⟨by decide,
    run_hands_nodup [0, 13, 52, 13, 65, 0, 5]
      [Action.hit, Action.hit, Action.stand 5, Action.tick 705, Action.tick 1500]
      twoDrawsState [] (by decide)⟩

/-- A tick 400 ms after the last action, across the wrap of `millis()`, waits; the tick
at 700 ms draws. -/
theorem finishDealerHitting_waits_witness :
    unsignedSub 100 beforeWrapState.lastDealerHitTime < 700 ∧
    finishDealerHitting beforeWrapState 100 [8] = some (beforeWrapState, [8]) ∧
    finishDealerHitting dealerTurnState 700 [8] = some (dealerDrewState, []) ∧
    dealerDrewState ≠ dealerTurnState ∧
    700 ≤ unsignedSub 700 dealerTurnState.lastDealerHitTime ∧
    2 ^ 32 - 300 ≤ 2 ^ 32 + 100 ∧ 2 ^ 32 + 100 - (2 ^ 32 - 300) < 700 ∧
    beforeWrapState.lastDealerHitTime = millis (2 ^ 32 - 300) ∧
    100 = millis (2 ^ 32 + 100) ∧
    finishDealerHitting beforeWrapState (millis (2 ^ 32 + 100)) [8] =
      some (beforeWrapState, [8]) :=
  ⟨by decide, (finishDealerHitting_waits beforeWrapState 100 [8]).1 (by decide), by decide,
    by decide,
    (finishDealerHitting_waits dealerTurnState 700 [8]).2.1 dealerDrewState [] (by decide)
      (by decide),
    by decide, by decide, by decide, by decide,
    (finishDealerHitting_waits beforeWrapState (millis (2 ^ 32 + 100)) [8]).2.2 (2 ^ 32 - 300)
      (2 ^ 32 + 100) (by decide) (by decide) (by decide) rfl⟩

/-- The three branches on sample states: stand on 19, bust on 23, draw on 10. -/
theorem finishDealerHitting_rule_witness :
    dealerDrewState.dealerHitting = true ∧
    ¬ unsignedSub 1400 dealerDrewState.lastDealerHitTime < dealerHitInterval ∧
    17 ≤ calculateHandValue dealerDrewState.dealerHand ∧
    calculateHandValue dealerDrewState.dealerHand ≤ 21 ∧
    finishDealerHitting dealerDrewState 1400 [] = some (roundOverState, []) ∧
    21 < calculateHandValue dealerOverState.dealerHand ∧
    finishDealerHitting dealerOverState 1400 [] = some (dealerBustState, []) ∧
    calculateHandValue dealerTurnState.dealerHand < 17 ∧
    (finishDealerHitting dealerTurnState 700 [12, 8]).isSome = true :=
  ⟨by decide, by decide, by decide, by decide,
    ((finishDealerHitting_rule dealerDrewState 1400 [] (by decide) (by decide)).1 (by decide)
      (by decide)).trans (by decide),
    by decide,
    ((finishDealerHitting_rule dealerOverState 1400 [] (by decide) (by decide)).2.1
      (by decide)).trans (by decide),
    by decide,
    ((finishDealerHitting_rule dealerTurnState 700 [12, 8] (by decide) (by decide)).2.2
      (by decide)).1 ⟨8, by decide, by decide⟩⟩

/-- A run that fills the dealer hand with 10 cards, the last one taking it to 18. -/
theorem run_hands_bounded_witness :
    run initialState tenCards (Action.stand 0 :: ticksEvery700 10) =
      some (tenCardDealerState, []) ∧
    tenCardDealerState.dealerHand.length = 10 ∧
    tenCardDealerState.playerHand.length ≤ 10 ∧
    17 ≤ calculateHandValue tenCardDealerState.dealerHand :=
  ⟨by decide, by decide,
    (run_hands_bounded tenCards (Action.stand 0 :: ticksEvery700 10) tenCardDealerState []
      (by decide)).1,
    ((run_hands_bounded tenCards (Action.stand 0 :: ticksEvery700 10) tenCardDealerState []
      (by decide)).2.2.2 (by decide)).1⟩

end MiniHuis
